import Mathlib

/-!
# Listing query pipeline of `projects/airbnb_listings2/js/main.js`

A shallow embedding of the pure parts of `MainModule`: the field helpers
(`parsePrice`, `escapeHtml`, `truncate`), the favorites map, and the query step
of `applyFiltersAndRender` (cap, text filter, favorites filter, sort).

Modelling conventions.
* A JavaScript string is the list of its UTF-16 code units (`JSString`);
  `"…"` is the single code unit `0x2026`.
* A JavaScript number that is finite is the rational it denotes (every finite
  double is a rational).  The comparators only use the sign of a difference of
  two finite doubles, which is the sign of the exact difference.
* `String.prototype.toLowerCase` is a parameter of the query (its Unicode
  tables are not part of the repository); `toLowerCaseAscii` is the instance
  used on concrete ASCII inputs.
* `favorites` is the plain object that `JSON.parse` returned: a read `favorites[k]`
  finds an own property or else the member of `Object.prototype` of that name, and a
  write of a boolean creates or overwrites an own property, except for `__proto__`
  without an own property, where the inherited setter ignores the boolean.
-/

namespace MainModule

/-! ## Strings -/

/-- A UTF-16 code unit. -/
abbrev CodeUnit := Nat

/-- A JavaScript string: the sequence of its UTF-16 code units. -/
abbrev JSString := List CodeUnit

/-- UTF-16 encoding of one Unicode scalar value. -/
def encodeChar (c : Char) : JSString :=
  if c.toNat < 0x10000 then [c.toNat]
  else [0xD800 + (c.toNat - 0x10000) / 0x400, 0xDC00 + (c.toNat - 0x10000) % 0x400]

/-- UTF-16 encoding of a list of characters. -/
def encodeChars : List Char → JSString
  | [] => []
  | c :: cs => encodeChar c ++ encodeChars cs

/-- The JavaScript string written as the literal `s`. -/
def js (s : String) : JSString := encodeChars s.toList

/-- `String(v ?? "")` for a value that is a string or absent. -/
def toStr : Option JSString → JSString
  | some s => s
  | none => []

/-- `String(v || "")` for a value that is a string or absent. -/
def orEmpty : Option JSString → JSString
  | some s => s
  | none => []

/-- WhiteSpace and LineTerminator code units, the ones `trim` strips. -/
def isWhiteSpace (c : CodeUnit) : Bool :=
  c == 0x09 || c == 0x0A || c == 0x0B || c == 0x0C || c == 0x0D || c == 0x20 ||
  c == 0xA0 || c == 0x1680 || (0x2000 ≤ c && c ≤ 0x200A) || c == 0x2028 ||
  c == 0x2029 || c == 0x202F || c == 0x205F || c == 0x3000 || c == 0xFEFF

/-- Model of `String.prototype.trimStart`. -/
def trimStart (s : JSString) : JSString := s.dropWhile isWhiteSpace

/-- Model of `String.prototype.trimEnd`. -/
def trimEnd (s : JSString) : JSString := (s.reverse.dropWhile isWhiteSpace).reverse

/-- Model of `String.prototype.trim`. -/
def trim (s : JSString) : JSString := trimEnd (trimStart s)

/-- Model of `s.slice(0, n)` for an integer `n`: a negative `n` counts from the end. -/
def slice0 (s : JSString) (n : Int) : JSString :=
  if 0 ≤ n then s.take n.toNat else s.take ((s.length : Int) + n).toNat

/-- Model of `s.replaceAll(c, rep)` for a one-code-unit pattern `c` and a replacement
without `$`. -/
def replaceAll : JSString → CodeUnit → JSString → JSString
  | [], _, _ => []
  | x :: xs, c, rep => (if x = c then rep else [x]) ++ replaceAll xs c rep

/-- Model of `hay.includes(q)`. -/
def includes : JSString → JSString → Bool
  | [], q => q.isEmpty
  | c :: cs, q => q.isPrefixOf (c :: cs) || includes cs q

/-- Model of `Array.prototype.join` on an array of strings. -/
def join (sep : JSString) : List JSString → JSString
  | [] => []
  | [s] => s
  | s :: t :: rest => s ++ sep ++ join sep (t :: rest)

/-- ASCII instance of `toLowerCase`: `A`..`Z` go to `a`..`z`, the rest is kept. -/
def toLowerCaseAscii (s : JSString) : JSString :=
  s.map fun c => if 65 ≤ c ∧ c ≤ 90 then c + 32 else c

/-! ## `escapeHtml` -/

/-- The string `&amp;`. -/
def ampEntity : JSString := [38, 97, 109, 112, 59]
/-- The string `&lt;`. -/
def ltEntity : JSString := [38, 108, 116, 59]
/-- The string `&gt;`. -/
def gtEntity : JSString := [38, 103, 116, 59]
/-- The string `&quot;`. -/
def quotEntity : JSString := [38, 113, 117, 111, 116, 59]
/-- The string `&#039;`. -/
def aposEntity : JSString := [38, 35, 48, 51, 57, 59]

/-- The five entities `escapeHtml` writes. -/
def entities : List JSString := [ampEntity, ltEntity, gtEntity, quotEntity, aposEntity]

/-- Source `escapeHtml`: five `replaceAll` passes, `&` first. -/
def escapeHtml (str : Option JSString) : JSString :=
  replaceAll (replaceAll (replaceAll (replaceAll (replaceAll (toStr str)
    38 ampEntity) 60 ltEntity) 62 gtEntity) 34 quotEntity) 39 aposEntity

/-- The entity that starts the string, with the character it stands for. -/
def entityAt (s : JSString) : Option (CodeUnit × JSString) :=
  if ampEntity.isPrefixOf s then some (38, ampEntity)
  else if ltEntity.isPrefixOf s then some (60, ltEntity)
  else if gtEntity.isPrefixOf s then some (62, gtEntity)
  else if quotEntity.isPrefixOf s then some (34, quotEntity)
  else if aposEntity.isPrefixOf s then some (39, aposEntity)
  else none

/-- Left-to-right scan replacing entities by their characters; `skip` is the number of
code units of the entity just replaced that are still to be passed over. -/
def unescapeFrom : Nat → JSString → JSString
  | _, [] => []
  | skip + 1, _ :: rest => unescapeFrom skip rest
  | 0, c :: rest =>
    match entityAt (c :: rest) with
    | some (ch, e) => ch :: unescapeFrom (e.length - 1) rest
    | none => c :: unescapeFrom 0 rest

/-- Left-to-right replacement of the five entities by the characters they stand for. -/
def unescapeHtml (s : JSString) : JSString := unescapeFrom 0 s

/-! ## `truncate` -/

/-- The ellipsis `…` (U+2026). -/
def ellipsis : JSString := [0x2026]

/-- Source `truncate`; `max` is the integer passed (the source default is 160). -/
def truncate (text : Option JSString) (max : Int) : JSString :=
  let t := trim (toStr text)
  if t = [] then []
  else if (t.length : Int) > max then trim (slice0 t max) ++ ellipsis else t

/-! ## `parsePrice` -/

/-- The code units `0`..`9`. -/
def isDigit (c : CodeUnit) : Bool := 48 ≤ c && c ≤ 57

/-- The regular expression class `[0-9.]`. -/
def isDigitOrDot (c : CodeUnit) : Bool := isDigit c || c == 46

/-- Model of `s.replace(/[^0-9.]/g, "")`. -/
def stripNonNumeric (s : JSString) : JSString := s.filter isDigitOrDot

/-- Value of a run of decimal digits. -/
def digitsValue (ds : JSString) : Nat := ds.foldl (fun acc c => 10 * acc + (c - 48)) 0

/-- The grammar `StrUnsignedDecimalLiteral` restricted to digits and dots: the literal
denotes `numerator / denominator`; `none` when the string is not a literal. -/
def parseDecimal (r : JSString) : Option (Nat × Nat) :=
  let ip := r.takeWhile isDigit
  match r.dropWhile isDigit with
  | [] => if ip = [] then none else some (digitsValue ip, 1)
  | c :: fp =>
    if c = 46 ∧ fp.all isDigit ∧ (ip ≠ [] ∨ fp ≠ []) then
      some (digitsValue (ip ++ fp), 10 ^ fp.length)
    else none

/-- Floor of the binary logarithm, by halving at most `fuel` times. -/
def log2Fuel : Nat → Nat → Nat
  | 0, _ => 0
  | fuel + 1, n => if n < 2 then 0 else log2Fuel fuel (n / 2) + 1

/-- Floor of the binary logarithm of `n` (`0` for `n = 0`). -/
def log2 (n : Nat) : Nat := log2Fuel n n

/-- Whether `2 ^ e ≤ n / d`. -/
def geTwoPow (n d : Nat) (e : Int) : Bool :=
  if 0 ≤ e then decide (2 ^ e.toNat * d ≤ n) else decide (d ≤ n * 2 ^ (-e).toNat)

/-- The integer `e` with `2 ^ e ≤ n / d < 2 ^ (e + 1)`, for positive `n` and `d`. -/
def binaryExponent (n d : Nat) : Int :=
  let e0 : Int := (log2 n : Int) - (log2 d : Int)
  if geTwoPow n d e0 then e0 else e0 - 1

/-- The integer nearest to `num / den`, ties to the even one. -/
def roundHalfEven (num den : Nat) : Nat :=
  let qf := num / den
  let r := num % den
  if den < 2 * r ∨ (2 * r = den ∧ qf % 2 = 1) then qf + 1 else qf

/-- The least value that rounds to `Infinity`: `2 ^ 1024 - 2 ^ 970`. -/
def overflowThreshold : Nat := 2 ^ 1024 - 2 ^ 970

/-- The binary64 value nearest to `n / d` (ties to even), `none` when it is `Infinity`:
with `p` the exponent of the last place, the value is `m * 2 ^ p` for the 53-bit
significand `m`. -/
def roundDouble (n d : Nat) : Option ℚ :=
  if n = 0 then some 0
  else
    let p : Int := max (binaryExponent n d) (-1022) - 52
    let m := roundHalfEven (n * 2 ^ (-p).toNat) (d * 2 ^ p.toNat)
    if 0 ≤ p then
      if 2 ^ 1024 ≤ m * 2 ^ p.toNat then none else some ((m * 2 ^ p.toNat : Nat) : ℚ)
    else some (mkRat m (2 ^ (-p).toNat))

/-- Model of `Number(r)` followed by `Number.isFinite` for a string `r` of digits and
dots: the finite value, or `none` for `NaN` and `Infinity`.  The empty string is `0`. -/
def finiteNumber (r : JSString) : Option ℚ :=
  if r = [] then some 0
  else
    match parseDecimal r with
    | none => none
    | some (n, d) => roundDouble n d

/-- Source `parsePrice`: `none` is `null`. -/
def parsePrice (priceStr : Option JSString) : Option ℚ :=
  finiteNumber (stripNonNumeric (orEmpty priceStr))

/-! ## Favorites -/

/-- The values a stored favorites entry can hold, as far as truthiness goes. -/
inductive JSValue where
  | undefined
  | null
  | bool (b : Bool)
  | number (x : ℚ)
  | string (s : JSString)
  | object
  deriving DecidableEq

/-- JavaScript truthiness (`!!v`). -/
def JSValue.truthy : JSValue → Bool
  | .undefined => false
  | .null => false
  | .bool b => b
  | .number x => decide (x ≠ 0)
  | .string s => !s.isEmpty
  | .object => true

/-- The favorites object: its own properties, key to value. -/
abbrev Favorites := List (JSString × JSValue)

/-- The property names of `Object.prototype` in a browser.  Each holds a function, and
`__proto__` reads as the prototype object itself: all of them are truthy. -/
def objectPrototypeKeys : List JSString :=
  [js "constructor", js "__defineGetter__", js "__defineSetter__", js "hasOwnProperty",
   js "__lookupGetter__", js "__lookupSetter__", js "isPrototypeOf",
   js "propertyIsEnumerable", js "toString", js "valueOf", js "__proto__",
   js "toLocaleString"]

/-- The own property `id` of the favorites object, if there is one. -/
def getOwn : Favorites → JSString → Option JSValue
  | [], _ => none
  | (k, v) :: rest, id => if k = id then some v else getOwn rest id

/-- Creates or overwrites the own property `id`. -/
def setOwn : Favorites → JSString → JSValue → Favorites
  | [], id, v => [(id, v)]
  | (k, w) :: rest, id, v => if k = id then (k, v) :: rest else (k, w) :: setOwn rest id v

/-- Model of the read `favorites[id]`: the own property, else the inherited member of
`Object.prototype`, else `undefined`. -/
def getFav (favorites : Favorites) (id : JSString) : JSValue :=
  match getOwn favorites id with
  | some v => v
  | none => if id ∈ objectPrototypeKeys then .object else .undefined

/-- Model of the write `favorites[id] = b` for a boolean `b`, the only kind of write in
the source.  For `__proto__` without an own property the write reaches the inherited
setter, which ignores a boolean; every other write creates or overwrites an own
property. -/
def setFav (favorites : Favorites) (id : JSString) (b : Bool) : Favorites :=
  if id = js "__proto__" ∧ getOwn favorites id = none then favorites
  else setOwn favorites id (.bool b)

/-- The click handler of a favorite button: `favorites[id] = !favorites[id]`. -/
def toggleFavorite (favorites : Favorites) (id : JSString) : Favorites :=
  setFav favorites id (!(getFav favorites id).truthy)

/-! ## The query step of `applyFiltersAndRender` -/

/-- A listing record, with the fields the query reads. -/
structure Listing where
  id : JSString
  name : Option JSString
  host_name : Option JSString
  neighbourhood_cleansed : Option JSString
  neighbourhood : Option JSString
  description : Option JSString
  price : Option JSString
  review_scores_rating : Option ℚ
  deriving DecidableEq

/-- The controls read at the start of `applyFiltersAndRender`: `searchInput?.value || ""`,
`sortSelect?.value` (empty when absent) and `!!favOnly?.checked`. -/
structure QueryState where
  searchValue : JSString
  sortValue : JSString
  favOnlyChecked : Bool

/-- Model of `[...].filter(Boolean)` on fields that are strings or absent. -/
def filterBoolean : List (Option JSString) → List JSString
  | [] => []
  | some (c :: cs) :: rest => (c :: cs) :: filterBoolean rest
  | _ :: rest => filterBoolean rest

/-- The string `hay` built for one listing. -/
def hay (toLowerCase : JSString → JSString) (l : Listing) : JSString :=
  toLowerCase (join [32] (filterBoolean
    [l.name, l.host_name, l.neighbourhood_cleansed, l.neighbourhood, l.description]))

/-- The comparator step of `Array.prototype.sort`: `a` goes before the first `b` with
`cmp a b ≤ 0`. -/
def sortInsert {α : Type} (cmp : α → α → ℚ) (a : α) : List α → List α
  | [] => [a]
  | b :: bs => if cmp a b ≤ 0 then a :: b :: bs else b :: sortInsert cmp a bs

/-- Model of `Array.prototype.sort(cmp)`, a stable sort: for a comparator that is a
total preorder every stable sort returns this list. -/
def arraySort {α : Type} (cmp : α → α → ℚ) : List α → List α
  | [] => []
  | a :: rest => sortInsert cmp a (arraySort cmp rest)

/-- The value `parsePrice(l.price) ?? 0`. -/
def priceKey (l : Listing) : ℚ := (parsePrice l.price).getD 0

/-- The value `l.review_scores_rating ?? -1`. -/
def ratingKey (l : Listing) : ℚ := l.review_scores_rating.getD (-1)

/-- The trimmed, lower-cased search text `q`. -/
def searchQuery (toLowerCase : JSString → JSString) (st : QueryState) : JSString :=
  toLowerCase (trim st.searchValue)

/-- The value `sortSelect?.value || "default"`. -/
def sortMode (st : QueryState) : JSString :=
  if st.sortValue = [] then js "default" else st.sortValue

/-- Lines 159-179: the cap, the text filter and the favorites filter. -/
def capAndFilter (toLowerCase : JSString → JSString) (allListings : List Listing)
    (favorites : Favorites) (st : QueryState) : List Listing :=
  let q := searchQuery toLowerCase st
  let filtered := allListings.take 50
  let filtered := if q ≠ [] then filtered.filter (fun l => includes (hay toLowerCase l) q)
    else filtered
  if st.favOnlyChecked then filtered.filter (fun l => (getFav favorites l.id).truthy)
  else filtered

/-- Lines 181-189: the sort. -/
def sortStep (mode : JSString) (filtered : List Listing) : List Listing :=
  if mode = js "priceAsc" ∨ mode = js "priceDesc" then
    arraySort (fun a b =>
      if mode = js "priceAsc" then priceKey a - priceKey b else priceKey b - priceKey a)
      filtered
  else if mode = js "ratingDesc" then
    arraySort (fun a b => ratingKey b - ratingKey a) filtered
  else filtered

/-- The query step of `applyFiltersAndRender`: the list `filtered` that it renders. -/
def applyFiltersAndRender (toLowerCase : JSString → JSString) (allListings : List Listing)
    (favorites : Favorites) (st : QueryState) : List Listing :=
  sortStep (sortMode st) (capAndFilter toLowerCase allListings favorites st)

/-! ## Definitions used to state the properties -/

/-- What `escapeHtml` writes for one code unit. -/
def escapeUnit (x : CodeUnit) : JSString :=
  if x = 38 then ampEntity else if x = 60 then ltEntity else if x = 62 then gtEntity
  else if x = 34 then quotEntity else if x = 39 then aposEntity else [x]

/-- The string `r` is the decimal literal with integer digits `ip` and fraction digits
`fp`: either `r` is the non-empty digit run `ip` (and `fp` is empty), or `r` is
`ip`, a dot, `fp`, with at least one digit overall. -/
def LiteralParts (r ip fp : JSString) : Prop :=
  (∀ c ∈ ip, isDigit c = true) ∧ (∀ c ∈ fp, isDigit c = true) ∧
    ((r = ip ∧ ip ≠ [] ∧ fp = []) ∨ (r = ip ++ 46 :: fp ∧ (ip ≠ [] ∨ fp ≠ [])))

/-- The grammar of an unsigned decimal literal made of digits and dots. -/
def IsDecimalLiteral (r : JSString) : Prop := ∃ ip fp : JSString, LiteralParts r ip fp

/-- A decimal literal whose value `digits(ip fp) / 10 ^ |fp|` is below the least value
that rounds to `Infinity`: the strings `Number` maps to a finite number. -/
def IsFiniteDecimal (r : JSString) : Prop :=
  ∃ ip fp : JSString, LiteralParts r ip fp ∧
    digitsValue (ip ++ fp) < overflowThreshold * 10 ^ fp.length

/-- The search fields of a listing that are present and non-empty, in the order
name, host name, primary neighbourhood, alternate neighbourhood, description. -/
def searchFields (l : Listing) : List JSString :=
  ([l.name, l.host_name, l.neighbourhood_cleansed, l.neighbourhood,
    l.description].reduceOption).filter (fun s => decide (s ≠ []))

/-- The search text of a listing as the specification words it: the alternate
neighbourhood field is used only when the primary one is absent. -/
def specHay (toLowerCase : JSString → JSString) (l : Listing) : JSString :=
  toLowerCase (join [32] (filterBoolean
    [l.name, l.host_name,
      (match l.neighbourhood_cleansed with
        | some s => some s
        | none => l.neighbourhood),
      l.description]))

/-- A listing whose two neighbourhood fields are both present. -/
def sampleLoft : Listing :=
  { id := js "101", name := some (js "Sunny Loft"), host_name := some (js "Ann"),
    neighbourhood_cleansed := some (js "Mission"),
    neighbourhood := some (js "Potrero Hill"), description := some (js "Free WiFi included"),
    price := some (js "$187.00"), review_scores_rating := some 4 }

/-- Record number `i + 1` of a dataset in which only record 55 mentions an infinity pool. -/
def sampleRecord (i : Nat) : Listing :=
  { id := [48 + i / 10, 48 + i % 10], name := some (js "Room"), host_name := none,
    neighbourhood_cleansed := none, neighbourhood := none,
    description := if i = 54 then some (js "Roof deck with Infinity Pool") else some (js "Cozy"),
    price := none, review_scores_rating := none }

/-- A dataset of 60 records. -/
def sampleDataset : List Listing := (List.range 60).map sampleRecord

/-- Four listings: `sampleA` and `sampleC` tie on price (20) and on rating (4.5),
`sampleB` has no rating, `sampleD` has no price and the rating 0. -/
def sampleA : Listing :=
  { id := js "1", name := some (js "A"), host_name := none, neighbourhood_cleansed := none,
    neighbourhood := none, description := none, price := some (js "$20.00"),
    review_scores_rating := some (9 / 2) }

/-- Second sample listing. -/
def sampleB : Listing :=
  { id := js "2", name := some (js "B"), host_name := none, neighbourhood_cleansed := none,
    neighbourhood := none, description := none, price := some (js "$10.50"),
    review_scores_rating := none }

/-- Third sample listing. -/
def sampleC : Listing :=
  { id := js "3", name := some (js "C"), host_name := none, neighbourhood_cleansed := none,
    neighbourhood := none, description := none, price := some (js "20"),
    review_scores_rating := some (9 / 2) }

/-- Fourth sample listing. -/
def sampleD : Listing :=
  { id := js "4", name := some (js "D"), host_name := none, neighbourhood_cleansed := none,
    neighbourhood := none, description := none, price := none,
    review_scores_rating := some 0 }

/-- A favorites map with one truthy and one falsy entry. -/
def sampleFavorites : Favorites := [(js "2", .bool true), (js "3", .bool false)]

/-- A listing whose id is the name of a member of `Object.prototype`. -/
def sampleInherited : Listing :=
  { id := js "constructor", name := some (js "E"), host_name := none,
    neighbourhood_cleansed := none, neighbourhood := none, description := none,
    price := none, review_scores_rating := none }

/-! ## Facts about `escapeHtml` -/

theorem replaceAll_append (a b : JSString) (c : CodeUnit) (rep : JSString) :
    replaceAll (a ++ b) c rep = replaceAll a c rep ++ replaceAll b c rep := by
  induction a with
  | nil => simp [replaceAll]
  | cons x xs ih => simp [replaceAll, ih]

theorem replaceAll_singleton (x c : CodeUnit) (rep : JSString) :
    replaceAll [x] c rep = if x = c then rep else [x] := by
  simp [replaceAll]

theorem escapeHtml_nil : escapeHtml (some []) = [] := by
  simp [escapeHtml, toStr, replaceAll]

theorem escapeHtml_none : escapeHtml none = [] := by
  simp [escapeHtml, toStr, replaceAll]

theorem escapeHtml_cons (x : CodeUnit) (xs : JSString) :
    escapeHtml (some (x :: xs)) = escapeUnit x ++ escapeHtml (some xs) := by
  have hx : x :: xs = [x] ++ xs := rfl
  simp only [escapeHtml, toStr]
  rw [hx]
  simp only [replaceAll_append]
  congr 1
  unfold escapeUnit
  by_cases h1 : x = 38
  · subst h1; decide
  by_cases h2 : x = 60
  · subst h2; decide
  by_cases h3 : x = 62
  · subst h3; decide
  by_cases h4 : x = 34
  · subst h4; decide
  by_cases h5 : x = 39
  · subst h5; decide
  simp [replaceAll, h1, h2, h3, h4, h5]

theorem escapeUnit_clean (x c : Nat) (h : c ∈ escapeUnit x) :
    c ≠ 60 ∧ c ≠ 62 ∧ c ≠ 34 ∧ c ≠ 39 := by
  unfold escapeUnit at h
  split_ifs at h with h1 h2 h3 h4 h5
  all_goals
    simp only [ampEntity, ltEntity, gtEntity, quotEntity, aposEntity, List.mem_cons,
      List.mem_singleton, List.not_mem_nil, or_false] at h
    first | omega | (subst h; exact ⟨h2, h3, h4, h5⟩)

theorem escapeUnit_ne_nil (x : CodeUnit) : escapeUnit x ≠ [] := by
  unfold escapeUnit
  split_ifs <;> simp [ampEntity, ltEntity, gtEntity, quotEntity, aposEntity]

theorem escapeUnit_amp (x : CodeUnit) (i : Nat) (h : (escapeUnit x)[i]? = some 38) :
    i = 0 ∧ escapeUnit x ∈ entities := by
  unfold escapeUnit at h ⊢
  split_ifs at h ⊢ with h1 h2 h3 h4 h5
  all_goals
    simp only [ampEntity, ltEntity, gtEntity, quotEntity, aposEntity, entities] at h ⊢
  all_goals
    rcases i with _ | _ | _ | _ | _ | _ | i <;> simp_all

theorem unescapeFrom_escapeUnit (x : CodeUnit) (r : JSString) :
    unescapeFrom 0 (escapeUnit x ++ r) = x :: unescapeFrom 0 r := by
  unfold escapeUnit
  split_ifs with h1 h2 h3 h4 h5
  · subst h1
    simp [unescapeFrom, entityAt, ampEntity, List.isPrefixOf]
  · subst h2
    simp [unescapeFrom, entityAt, ampEntity, ltEntity, List.isPrefixOf]
  · subst h3
    simp [unescapeFrom, entityAt, ampEntity, ltEntity, gtEntity, List.isPrefixOf]
  · subst h4
    simp [unescapeFrom, entityAt, ampEntity, ltEntity, gtEntity, quotEntity, List.isPrefixOf]
  · subst h5
    simp [unescapeFrom, entityAt, ampEntity, ltEntity, gtEntity, quotEntity, aposEntity,
      List.isPrefixOf]
  · have h1s : ¬ 38 = x := fun h => h1 h.symm
    simp [unescapeFrom, entityAt, ampEntity, ltEntity, gtEntity, quotEntity, aposEntity,
      List.isPrefixOf, h1s]

theorem escapeHtml_clean (s : JSString) :
    ∀ c ∈ escapeHtml (some s), c ≠ 60 ∧ c ≠ 62 ∧ c ≠ 34 ∧ c ≠ 39 := by
  induction s with
  | nil => simp [escapeHtml_nil]
  | cons x xs ih =>
    intro c hc
    rw [escapeHtml_cons, List.mem_append] at hc
    rcases hc with hc | hc
    · exact escapeUnit_clean x c hc
    · exact ih c hc

theorem escapeHtml_amp (s : JSString) :
    ∀ i, (escapeHtml (some s))[i]? = some 38 →
      ∃ e ∈ entities, e <+: (escapeHtml (some s)).drop i := by
  induction s with
  | nil => simp [escapeHtml_nil]
  | cons x xs ih =>
    intro i hi
    rw [escapeHtml_cons] at hi ⊢
    by_cases hlt : i < (escapeUnit x).length
    · rw [List.getElem?_append_left hlt] at hi
      obtain ⟨h0, hmem⟩ := escapeUnit_amp x i hi
      subst h0
      exact ⟨escapeUnit x, hmem, by simp⟩
    · have hle : (escapeUnit x).length ≤ i := Nat.le_of_not_lt hlt
      rw [List.getElem?_append_right hle] at hi
      obtain ⟨e, he, hpre⟩ := ih _ hi
      refine ⟨e, he, ?_⟩
      have hdrop : List.drop i (escapeUnit x ++ escapeHtml (some xs)) =
          List.drop (i - (escapeUnit x).length) (escapeHtml (some xs)) := by
        rw [List.drop_append_eq_append_drop, List.drop_of_length_le hle, List.nil_append]
      rw [hdrop]
      exact hpre

theorem unescapeHtml_escapeHtml (s : JSString) :
    unescapeHtml (escapeHtml (some s)) = s := by
  induction s with
  | nil => simp [escapeHtml_nil, unescapeHtml, unescapeFrom]
  | cons x xs ih =>
    rw [escapeHtml_cons]
    unfold unescapeHtml at ih ⊢
    rw [unescapeFrom_escapeUnit, ih]

/-! ## Facts about `trim` and `truncate` -/

theorem trimEnd_initial (s : JSString) : trimEnd s <+: s := by
  unfold trimEnd
  have h : s.reverse.dropWhile isWhiteSpace <:+ s.reverse := List.dropWhile_suffix _
  have h2 := List.reverse_prefix.mpr h
  simpa using h2

theorem trimEnd_length_le (s : JSString) : (trimEnd s).length ≤ s.length :=
  (trimEnd_initial s).length_le

theorem trimStart_length_le (s : JSString) : (trimStart s).length ≤ s.length :=
  (List.dropWhile_suffix (l := s) isWhiteSpace).length_le

theorem trim_length_le (s : JSString) : (trim s).length ≤ s.length :=
  Nat.le_trans (trimEnd_length_le _) (trimStart_length_le s)

theorem trimStart_head (s : JSString) (c : CodeUnit) (r : JSString)
    (h : trimStart s = c :: r) : isWhiteSpace c = false := by
  induction s with
  | nil => simp [trimStart] at h
  | cons x xs ih =>
    unfold trimStart at h ih
    rw [List.dropWhile_cons] at h
    split_ifs at h with hx
    · exact ih h
    · simp only [List.cons.injEq] at h
      rw [← h.1]
      simpa using hx

theorem trim_head (s : JSString) (c : CodeUnit) (r : JSString)
    (h : trim s = c :: r) : isWhiteSpace c = false := by
  obtain ⟨u, hu⟩ := trimEnd_initial (trimStart s)
  unfold trim at h
  rw [h] at hu
  exact trimStart_head s c (r ++ u) (by simpa using hu.symm)

theorem trimStart_eq_self (s : JSString)
    (h : ∀ c r, s = c :: r → isWhiteSpace c = false) : trimStart s = s := by
  cases s with
  | nil => rfl
  | cons x xs =>
    have hx := h x xs rfl
    simp [trimStart, List.dropWhile_cons, hx]

theorem trimEnd_eq_self (s : JSString)
    (h : ∀ c, s.getLast? = some c → isWhiteSpace c = false) : trimEnd s = s := by
  unfold trimEnd
  have hrev : s.reverse.dropWhile isWhiteSpace = s.reverse := by
    cases hs : s.reverse with
    | nil => rfl
    | cons x xs =>
      have hl : s.getLast? = some x := by
        rw [List.getLast?_eq_head?_reverse, hs]
        rfl
      have hx := h x hl
      simp [List.dropWhile_cons, hx]
  rw [hrev, List.reverse_reverse]

theorem trim_take_trim (s : JSString) (n : Nat) :
    trim ((trim s).take n) = trimEnd ((trim s).take n) := by
  unfold trim
  congr 1
  apply trimStart_eq_self
  intro c r hcr
  cases ht : trimEnd (trimStart s) with
  | nil => simp [ht] at hcr
  | cons y ys =>
    rw [ht] at hcr
    cases n with
    | zero => simp at hcr
    | succ m =>
      simp only [List.take_succ_cons, List.cons.injEq] at hcr
      rw [← hcr.1]
      exact trim_head s y ys ht

theorem truncate_of_le (text : Option JSString) (max : Int)
    (h : ((trim (toStr text)).length : Int) ≤ max) : truncate text max = trim (toStr text) := by
  unfold truncate
  by_cases ht : trim (toStr text) = []
  · simp [ht]
  · have hgt : ¬ ((trim (toStr text)).length : Int) > max := by omega
    simp [ht, hgt]

theorem truncate_of_nil (text : Option JSString) (max : Int)
    (h : trim (toStr text) = []) : truncate text max = [] := by
  simp [truncate, h]

theorem truncate_of_gt (text : Option JSString) (max : Int) (h0 : 0 ≤ max)
    (h : max < ((trim (toStr text)).length : Int)) :
    truncate text max = trimEnd ((trim (toStr text)).take max.toNat) ++ ellipsis := by
  have ht : trim (toStr text) ≠ [] := by
    intro hnil
    rw [hnil] at h
    simp at h
    omega
  have hgt : ((trim (toStr text)).length : Int) > max := h
  unfold truncate
  simp only [ht, if_false, hgt, if_true, slice0, h0]
  rw [trim_take_trim]

/-! ## Facts about `roundDouble` -/

theorem log2Fuel_spec (fuel : Nat) : ∀ n : Nat, 0 < n → n ≤ fuel →
    2 ^ log2Fuel fuel n ≤ n ∧ n < 2 ^ (log2Fuel fuel n + 1) := by
  induction fuel with
  | zero => intro n h0 h; omega
  | succ f ih =>
    intro n h0 h
    unfold log2Fuel
    by_cases h2 : n < 2
    · simp only [h2, if_true]
      omega
    · simp only [h2, if_false]
      have hdiv : 0 < n / 2 := Nat.div_pos (by omega) (by omega)
      have hle : n / 2 ≤ f := by omega
      obtain ⟨h3, h4⟩ := ih (n / 2) hdiv hle
      rw [Nat.pow_succ, Nat.pow_succ]
      rw [Nat.pow_succ] at h4
      constructor <;> omega

theorem log2_spec (n : Nat) (h : 0 < n) : 2 ^ log2 n ≤ n ∧ n < 2 ^ (log2 n + 1) :=
  log2Fuel_spec n n h (Nat.le_refl n)

theorem binaryExponent_spec (n d : Nat) (hn : 0 < n) (hd : 0 < d) :
    (0 ≤ binaryExponent n d →
      2 ^ (binaryExponent n d).toNat * d ≤ n ∧ n < 2 ^ ((binaryExponent n d).toNat + 1) * d) ∧
    (binaryExponent n d < 0 → n < d) := by
  obtain ⟨ha1, ha2⟩ := log2_spec n hn
  obtain ⟨hb1, hb2⟩ := log2_spec d hd
  unfold binaryExponent
  simp only
  generalize log2 n = a at ha1 ha2
  generalize log2 d = b at hb1 hb2
  by_cases hab : b ≤ a
  · obtain ⟨k, rfl⟩ := Nat.exists_eq_add_of_le hab
    have he0 : ((b + k : Nat) : Int) - (b : Int) = (k : Int) := by omega
    rw [he0]
    have hge : geTwoPow n d (k : Int) = decide (2 ^ k * d ≤ n) := by
      simp [geTwoPow]
    rw [hge]
    by_cases hle : 2 ^ k * d ≤ n
    · have hdec : decide (2 ^ k * d ≤ n) = true := decide_eq_true hle
      rw [hdec]
      simp only [if_true, Int.toNat_ofNat]
      refine ⟨fun _ => ⟨hle, ?_⟩, fun h => by omega⟩
      have h1 : 2 ^ (b + k + 1) = 2 ^ (k + 1) * 2 ^ b := by
        rw [← Nat.pow_add]
        congr 1
        omega
      have h2 : 2 ^ (k + 1) * 2 ^ b ≤ 2 ^ (k + 1) * d := Nat.mul_le_mul_left _ hb1
      omega
    · have hdec : decide (2 ^ k * d ≤ n) = false := decide_eq_false hle
      rw [hdec]
      simp only [if_false, Bool.false_eq_true]
      have hlt : n < 2 ^ k * d := Nat.lt_of_not_le hle
      cases k with
      | zero =>
        refine ⟨fun h => by omega, fun _ => ?_⟩
        simpa using hlt
      | succ j =>
        have hj : ((j + 1 : Nat) : Int) - 1 = (j : Int) := by omega
        rw [hj]
        simp only [Int.toNat_ofNat]
        refine ⟨fun _ => ⟨?_, hlt⟩, fun h => by omega⟩
        have h1 : 2 ^ (b + (j + 1)) = 2 ^ j * 2 ^ (b + 1) := by
          rw [← Nat.pow_add]
          congr 1
          omega
        have h2 : 2 ^ j * d ≤ 2 ^ j * 2 ^ (b + 1) := Nat.mul_le_mul_left _ (Nat.le_of_lt hb2)
        omega
  · have hlt : a + 1 ≤ b := by omega
    have h1 : 2 ^ (a + 1) ≤ 2 ^ b := Nat.pow_le_pow_right (by decide) hlt
    have hnd : n < d := by omega
    have hneg : (a : Int) - (b : Int) < 0 := by omega
    constructor
    · intro h
      split_ifs at h <;> omega
    · intro _
      exact hnd

theorem roundHalfEven_cases (num den : Nat) :
    (roundHalfEven num den = num / den ∧
      ¬ (den < 2 * (num % den) ∨ (2 * (num % den) = den ∧ num / den % 2 = 1))) ∨
    (roundHalfEven num den = num / den + 1 ∧
      (den < 2 * (num % den) ∨ (2 * (num % den) = den ∧ num / den % 2 = 1))) := by
  unfold roundHalfEven
  simp only
  split_ifs with h
  · exact Or.inr ⟨rfl, h⟩
  · exact Or.inl ⟨rfl, h⟩

theorem two_pow_split (a b c : Nat) (h : a + b = c) : 2 ^ c = 2 ^ a * 2 ^ b := by
  subst h
  exact Nat.pow_add 2 a b

theorem overflowThreshold_eq : overflowThreshold = (2 ^ 54 - 1) * 2 ^ 970 := by
  unfold overflowThreshold
  rw [Nat.sub_mul, ← Nat.pow_add, Nat.one_mul]

theorem significand_bounds (n den : Nat) (hden : 0 < den) (h1 : 2 ^ 52 * den ≤ n)
    (h2 : n < 2 ^ 53 * den) : 2 ^ 52 ≤ n / den ∧ n / den < 2 ^ 53 := by
  constructor
  · exact (Nat.le_div_iff_mul_le hden).mpr h1
  · exact (Nat.div_lt_iff_lt_mul hden).mpr h2

set_option exponentiation.threshold 2048 in
theorem roundDouble_overflow_iff (n d j : Nat) (hd : 0 < d)
    (hE1 : 2 ^ (52 + j) * d ≤ n) (hE2 : n < 2 ^ (53 + j) * d) :
    2 ^ 1024 ≤ roundHalfEven n (d * 2 ^ j) * 2 ^ j ↔ overflowThreshold * d ≤ n := by
  have hPpos : 0 < 2 ^ j := Nat.two_pow_pos j
  have hden : 0 < d * 2 ^ j := Nat.mul_pos hd hPpos
  have h1 : 2 ^ 52 * (d * 2 ^ j) ≤ n := by
    have : 2 ^ 52 * (d * 2 ^ j) = 2 ^ (52 + j) * d := by rw [Nat.pow_add]; ring
    omega
  have h2 : n < 2 ^ 53 * (d * 2 ^ j) := by
    have : 2 ^ 53 * (d * 2 ^ j) = 2 ^ (53 + j) * d := by rw [Nat.pow_add]; ring
    omega
  obtain ⟨hq1, hq2⟩ := significand_bounds n (d * 2 ^ j) hden h1 h2
  have hdm := Nat.div_add_mod n (d * 2 ^ j)
  have hr := Nat.mod_lt n hden
  have hT := overflowThreshold_eq
  have hcases := roundHalfEven_cases n (d * 2 ^ j)
  rcases Nat.lt_trichotomy j 971 with hj | hj | hj
  · -- the value is below `2 ^ 1023`
    have hm : roundHalfEven n (d * 2 ^ j) ≤ 2 ^ 53 := by
      rcases hcases with ⟨h, _⟩ | ⟨h, _⟩ <;> omega
    have hlhs : roundHalfEven n (d * 2 ^ j) * 2 ^ j < 2 ^ 1024 :=
      calc roundHalfEven n (d * 2 ^ j) * 2 ^ j
          ≤ 2 ^ 53 * 2 ^ j := Nat.mul_le_mul_right _ hm
        _ = 2 ^ (53 + j) := (Nat.pow_add 2 53 j).symm
        _ < 2 ^ 1024 := Nat.pow_lt_pow_right (by decide) (by omega)
    have hrhs : n < overflowThreshold * d :=
      calc n < 2 ^ (53 + j) * d := hE2
        _ ≤ 2 ^ 1023 * d :=
          Nat.mul_le_mul_right _ (Nat.pow_le_pow_right (by decide) (by omega))
        _ ≤ overflowThreshold * d := by
          apply Nat.mul_le_mul_right
          rw [hT]
          calc 2 ^ 1023 = 2 ^ 53 * 2 ^ 970 := two_pow_split 53 970 1023 (by decide)
            _ ≤ (2 ^ 54 - 1) * 2 ^ 970 := Nat.mul_le_mul_right _ (by decide)
    constructor
    · intro h
      exact absurd h (Nat.not_le.mpr hlhs)
    · intro h
      exact absurd h (Nat.not_le.mpr hrhs)
  · -- the value lies in `[2 ^ 1023, 2 ^ 1024)`
    subst hj
    have hlhs : 2 ^ 1024 ≤ roundHalfEven n (d * 2 ^ 971) * 2 ^ 971 ↔
        2 ^ 53 ≤ roundHalfEven n (d * 2 ^ 971) := by
      have h1024 : 2 ^ 1024 = 2 ^ 53 * 2 ^ 971 := two_pow_split 53 971 1024 (by decide)
      rw [h1024]
      exact mul_le_mul_right hPpos
    have hrhs : overflowThreshold * d ≤ n ↔ (2 ^ 54 - 1) * (d * 2 ^ 971) ≤ 2 * n := by
      have h971 : (2 : Nat) ^ 971 = 2 ^ 970 * 2 ^ 1 := two_pow_split 970 1 971 (by decide)
      have heq : (2 ^ 54 - 1) * (d * 2 ^ 971) = 2 * (overflowThreshold * d) := by
        rw [hT, h971]
        ring
      rw [heq]
      omega
    rw [hlhs, hrhs]
    generalize d * 2 ^ 971 = den at *
    generalize hqf : n / den = qf at *
    generalize n % den = r at *
    have hX : qf ≤ 2 ^ 53 - 2 → den * qf ≤ den * (2 ^ 53 - 2) :=
      fun h => Nat.mul_le_mul_left den h
    have hY : qf = 2 ^ 53 - 1 → den * qf = den * (2 ^ 53 - 1) := fun h => by rw [h]
    rcases hcases with ⟨h, hno⟩ | ⟨h, hup⟩
    · rw [h]
      constructor
      · intro hge; omega
      · intro hge
        exfalso
        rcases Nat.lt_or_ge qf (2 ^ 53 - 1) with hlt | hge2
        · have := hX (by omega)
          omega
        · have := hY (by omega)
          apply hno
          omega
    · rw [h]
      constructor
      · intro hge
        have := hY (by omega)
        omega
      · intro hge
        rcases Nat.lt_or_ge qf (2 ^ 53 - 1) with hlt | hge2
        · have := hX (by omega)
          omega
        · omega
  · -- the value is at least `2 ^ 1024`
    have hm : 2 ^ 52 ≤ roundHalfEven n (d * 2 ^ j) := by
      rcases hcases with ⟨h, _⟩ | ⟨h, _⟩ <;> omega
    have hlhs : 2 ^ 1024 ≤ roundHalfEven n (d * 2 ^ j) * 2 ^ j :=
      calc 2 ^ 1024 ≤ 2 ^ (52 + j) := Nat.pow_le_pow_right (by decide) (by omega)
        _ = 2 ^ 52 * 2 ^ j := Nat.pow_add 2 52 j
        _ ≤ roundHalfEven n (d * 2 ^ j) * 2 ^ j := Nat.mul_le_mul_right _ hm
    have hrhs : overflowThreshold * d ≤ n :=
      calc overflowThreshold * d ≤ 2 ^ 1024 * d :=
          Nat.mul_le_mul_right _ (Nat.sub_le _ _)
        _ ≤ 2 ^ (52 + j) * d :=
          Nat.mul_le_mul_right _ (Nat.pow_le_pow_right (by decide) (by omega))
        _ ≤ n := hE1
    exact ⟨fun _ => hrhs, fun _ => hlhs⟩

set_option exponentiation.threshold 2048 in
theorem overflowThreshold_ge : 2 ^ 52 ≤ overflowThreshold := by
  rw [overflowThreshold_eq]
  have h1 : 2 ^ 52 ≤ 2 ^ 54 - 1 := by decide
  have h2 : 2 ^ 54 - 1 ≤ (2 ^ 54 - 1) * 2 ^ 970 :=
    Nat.le_mul_of_pos_right _ (Nat.two_pow_pos 970)
  exact Nat.le_trans h1 h2

theorem roundDouble_eq_none_iff (n d : Nat) (hd : 0 < d) :
    roundDouble n d = none ↔ overflowThreshold * d ≤ n := by
  have hTge := overflowThreshold_ge
  have hTd : 2 ^ 52 * d ≤ overflowThreshold * d := Nat.mul_le_mul_right _ hTge
  have h52 : 0 < 2 ^ 52 * d := Nat.mul_pos (Nat.two_pow_pos 52) hd
  by_cases hn : n = 0
  · subst hn
    simp only [roundDouble, if_true]
    constructor
    · intro h
      exact absurd h (by simp)
    · intro h
      omega
  · have hnpos : 0 < n := Nat.pos_of_ne_zero hn
    obtain ⟨hpos, hneg⟩ := binaryExponent_spec n d hnpos hd
    unfold roundDouble
    simp only [hn, if_false]
    generalize binaryExponent n d = e at hpos hneg
    by_cases hp : 0 ≤ max e (-1022) - 52
    · have he : 52 ≤ e := by omega
      obtain ⟨hE1, hE2⟩ := hpos (by omega)
      obtain ⟨j, hj⟩ : ∃ j : Nat, e.toNat = 52 + j := ⟨e.toNat - 52, by omega⟩
      have hp1 : (max e (-1022) - 52).toNat = j := by omega
      have hp2 : (-(max e (-1022) - 52)).toNat = 0 := by omega
      have hE2b : n < 2 ^ (53 + j) * d := by
        have : e.toNat + 1 = 53 + j := by omega
        rw [this] at hE2
        exact hE2
      rw [hj] at hE1
      have hiff := roundDouble_overflow_iff n d j hd hE1 hE2b
      simp only [hp, if_true, hp1, hp2, Nat.pow_zero, Nat.mul_one]
      split_ifs with hbig
      · exact ⟨fun _ => hiff.mp hbig, fun _ => rfl⟩
      · constructor
        · intro h
          exact absurd h (by simp)
        · intro h
          exact absurd (hiff.mpr h) hbig
    · simp only [hp, if_false]
      constructor
      · intro h
        exact absurd h (by simp)
      · intro h
        exfalso
        by_cases he : e < 0
        · have := hneg he
          omega
        · obtain ⟨_, hE2⟩ := hpos (by omega)
          have hle : 2 ^ (e.toNat + 1) ≤ 2 ^ 52 :=
            Nat.pow_le_pow_right (by decide) (by omega)
          have := Nat.mul_le_mul_right d hle
          omega

/-! ## Facts about `parsePrice` -/

theorem takeWhile_digits_append (ip rest : JSString) (h : ∀ c ∈ ip, isDigit c = true)
    (hrest : ∀ c r, rest = c :: r → isDigit c = false) :
    (ip ++ rest).takeWhile isDigit = ip ∧ (ip ++ rest).dropWhile isDigit = rest := by
  induction ip with
  | nil =>
    cases rest with
    | nil => simp
    | cons c r => simp [List.takeWhile_cons, List.dropWhile_cons, hrest c r rfl]
  | cons x xs ih =>
    have hx : isDigit x = true := h x (by simp)
    have ih2 := ih (fun c hc => h c (by simp [hc]))
    simp [List.takeWhile_cons, List.dropWhile_cons, hx, ih2.1, ih2.2]

theorem parseDecimal_of_parts (r ip fp : JSString) (h : LiteralParts r ip fp) :
    parseDecimal r = some (digitsValue (ip ++ fp), 10 ^ fp.length) := by
  obtain ⟨hip, hfp, h | h⟩ := h
  · obtain ⟨hr, hne, hnil⟩ := h
    subst hr hnil
    have ht := takeWhile_digits_append r [] hip (by simp)
    simp only [List.append_nil] at ht
    simp [parseDecimal, ht.1, ht.2, hne]
  · obtain ⟨hr, hne⟩ := h
    subst hr
    have ht := takeWhile_digits_append ip (46 :: fp) hip (by
      intro c r hcr
      simp only [List.cons.injEq] at hcr
      rw [← hcr.1]
      decide)
    have hall : fp.all isDigit = true := by
      rw [List.all_eq_true]
      exact hfp
    simp only [parseDecimal, ht.1, ht.2]
    simp [hall, hne]

theorem parts_of_parseDecimal (r : JSString) (n d : Nat) (h : parseDecimal r = some (n, d)) :
    ∃ ip fp, LiteralParts r ip fp ∧ n = digitsValue (ip ++ fp) ∧ d = 10 ^ fp.length := by
  have hsplit : r.takeWhile isDigit ++ r.dropWhile isDigit = r :=
    List.takeWhile_append_dropWhile _ _
  have hip : ∀ c ∈ r.takeWhile isDigit, isDigit c = true :=
    fun c hc => List.mem_takeWhile_imp hc
  unfold parseDecimal at h
  cases hd : r.dropWhile isDigit with
  | nil =>
    rw [hd] at h hsplit
    simp only [List.append_nil] at hsplit
    by_cases hne : r.takeWhile isDigit = []
    · simp [hne] at h
    · simp only [hne, if_false, Option.some.injEq, Prod.mk.injEq] at h
      refine ⟨r.takeWhile isDigit, [], ⟨hip, by simp, Or.inl ⟨hsplit.symm, hne, rfl⟩⟩, ?_, ?_⟩
      · simpa using h.1.symm
      · simpa using h.2.symm
  | cons c fp =>
    rw [hd] at h hsplit
    simp only at h
    split_ifs at h with hc
    · obtain ⟨hc1, hc2, hc3⟩ := hc
      subst hc1
      rw [List.all_eq_true] at hc2
      simp only [Option.some.injEq, Prod.mk.injEq] at h
      exact ⟨r.takeWhile isDigit, fp, ⟨hip, hc2, Or.inr ⟨hsplit.symm, hc3⟩⟩, h.1.symm, h.2.symm⟩

theorem parseDecimal_eq_none_iff (r : JSString) :
    parseDecimal r = none ↔ ¬ IsDecimalLiteral r := by
  constructor
  · intro h hl
    obtain ⟨ip, fp, hparts⟩ := hl
    rw [parseDecimal_of_parts r ip fp hparts] at h
    exact absurd h (by simp)
  · intro h
    cases hp : parseDecimal r with
    | none => rfl
    | some nd =>
      obtain ⟨n, d⟩ := nd
      obtain ⟨ip, fp, hparts, _, _⟩ := parts_of_parseDecimal r n d hp
      exact absurd ⟨ip, fp, hparts⟩ h

theorem finiteNumber_eq_none_iff (r : JSString) :
    finiteNumber r = none ↔ r ≠ [] ∧ ¬ IsFiniteDecimal r := by
  unfold finiteNumber
  by_cases hr : r = []
  · simp [hr]
  · simp only [hr, if_false, ne_eq, not_false_eq_true, true_and]
    cases hp : parseDecimal r with
    | none =>
      simp only [true_iff]
      rintro ⟨ip, fp, hparts, _⟩
      rw [parseDecimal_of_parts r ip fp hparts] at hp
      exact absurd hp (by simp)
    | some nd =>
      obtain ⟨n, d⟩ := nd
      obtain ⟨ip, fp, hparts, hn, hd⟩ := parts_of_parseDecimal r n d hp
      have hdpos : 0 < d := by
        rw [hd]
        exact Nat.pos_pow_of_pos _ (by decide)
      simp only
      rw [roundDouble_eq_none_iff n d hdpos]
      constructor
      · rintro hle ⟨ip2, fp2, hparts2, hlt⟩
        have h2 := parseDecimal_of_parts r ip2 fp2 hparts2
        rw [hp] at h2
        simp only [Option.some.injEq, Prod.mk.injEq] at h2
        rw [← h2.1, ← h2.2] at hlt
        omega
      · intro hnot
        by_contra hlt
        apply hnot
        refine ⟨ip, fp, hparts, ?_⟩
        rw [← hn, ← hd]
        omega

/-! ## Facts about the favorites map -/

theorem getOwn_setOwn (fav : Favorites) (id k : JSString) (v : JSValue) :
    getOwn (setOwn fav id v) k = if k = id then some v else getOwn fav k := by
  induction fav with
  | nil =>
    by_cases h : k = id
    · simp [setOwn, getOwn, h]
    · have h2 : ¬ id = k := fun e => h e.symm
      simp [setOwn, getOwn, h, h2]
  | cons p rest ih =>
    obtain ⟨k0, w⟩ := p
    by_cases h0 : k0 = id
    · subst h0
      by_cases h : k = k0
      · subst h
        simp [setOwn, getOwn]
      · have h2 : ¬ k0 = k := fun e => h e.symm
        simp [setOwn, getOwn, h, h2]
    · by_cases h : k0 = k
      · subst h
        simp [setOwn, getOwn, h0]
      · simp [setOwn, getOwn, h0, h, ih]

theorem getFav_setOwn (fav : Favorites) (id k : JSString) (v : JSValue) :
    getFav (setOwn fav id v) k = if k = id then v else getFav fav k := by
  unfold getFav
  rw [getOwn_setOwn]
  by_cases h : k = id
  · simp [h]
  · simp [h]

theorem getFav_proto_inherited (fav : Favorites) (h : getOwn fav (js "__proto__") = none) :
    getFav fav (js "__proto__") = .object := by
  unfold getFav
  rw [h]
  decide

theorem getFav_toggleFavorite (fav : Favorites) (id k : JSString)
    (h : ¬ (id = js "__proto__" ∧ getOwn fav id = none)) :
    getFav (toggleFavorite fav id) k =
      if k = id then .bool (!(getFav fav id).truthy) else getFav fav k := by
  unfold toggleFavorite setFav
  rw [if_neg h, getFav_setOwn]

theorem toggleFavorite_proto (fav : Favorites) (h : getOwn fav (js "__proto__") = none) :
    toggleFavorite fav (js "__proto__") = fav := by
  unfold toggleFavorite setFav
  rw [if_pos ⟨rfl, h⟩]

theorem getOwn_toggleFavorite (fav : Favorites) (id : JSString)
    (h : ¬ (id = js "__proto__" ∧ getOwn fav id = none)) :
    getOwn (toggleFavorite fav id) id ≠ none := by
  unfold toggleFavorite setFav
  rw [if_neg h, getOwn_setOwn]
  simp

/-! ## Facts about `arraySort` -/

section Sorting

variable {α : Type}

theorem sortInsert_perm (cmp : α → α → ℚ) (a : α) (l : List α) :
    (sortInsert cmp a l).Perm (a :: l) := by
  induction l with
  | nil => simp [sortInsert]
  | cons b bs ih =>
    unfold sortInsert
    split_ifs with h
    · exact List.Perm.refl _
    · exact (List.Perm.cons b ih).trans (List.Perm.swap a b bs)

theorem arraySort_perm (cmp : α → α → ℚ) (l : List α) : (arraySort cmp l).Perm l := by
  induction l with
  | nil => simp [arraySort]
  | cons a rest ih =>
    unfold arraySort
    exact (sortInsert_perm cmp a _).trans (List.Perm.cons a ih)

theorem sortInsert_sorted (cmp : α → α → ℚ) (k : α → ℚ)
    (hk : ∀ a b, cmp a b ≤ 0 ↔ k a ≤ k b) (a : α) (l : List α)
    (hl : l.Pairwise (fun x y => k x ≤ k y)) :
    (sortInsert cmp a l).Pairwise (fun x y => k x ≤ k y) := by
  induction l with
  | nil => simp [sortInsert]
  | cons b bs ih =>
    rw [List.pairwise_cons] at hl
    unfold sortInsert
    split_ifs with h
    · have hab : k a ≤ k b := (hk a b).mp h
      rw [List.pairwise_cons]
      refine ⟨?_, List.pairwise_cons.mpr hl⟩
      intro y hy
      rcases List.mem_cons.mp hy with rfl | hy
      · exact hab
      · exact le_trans hab (hl.1 y hy)
    · have hba : k b ≤ k a := by
        have hn : ¬ k a ≤ k b := fun h2 => h ((hk a b).mpr h2)
        exact le_of_lt (lt_of_not_le hn)
      rw [List.pairwise_cons]
      refine ⟨?_, ih hl.2⟩
      intro y hy
      rcases List.mem_cons.mp ((sortInsert_perm cmp a bs).mem_iff.mp hy) with rfl | hy
      · exact hba
      · exact hl.1 y hy

theorem arraySort_sorted (cmp : α → α → ℚ) (k : α → ℚ)
    (hk : ∀ a b, cmp a b ≤ 0 ↔ k a ≤ k b) (l : List α) :
    (arraySort cmp l).Pairwise (fun x y => k x ≤ k y) := by
  induction l with
  | nil => simp [arraySort]
  | cons a rest ih =>
    unfold arraySort
    exact sortInsert_sorted cmp k hk a _ ih

theorem sortInsert_filter (cmp : α → α → ℚ) (k : α → ℚ)
    (hk : ∀ a b, cmp a b ≤ 0 ↔ k a ≤ k b) (p : ℚ) (a : α) (l : List α) :
    (sortInsert cmp a l).filter (fun x => decide (k x = p)) =
      (a :: l).filter (fun x => decide (k x = p)) := by
  induction l with
  | nil => simp [sortInsert]
  | cons b bs ih =>
    unfold sortInsert
    split_ifs with h
    · rfl
    · have hne : k a ≠ k b := fun e => h ((hk a b).mpr (le_of_eq e))
      rw [List.filter_cons, ih]
      by_cases ha : k a = p
      · have hb : ¬ k b = p := fun e => hne (ha.trans e.symm)
        simp [List.filter_cons, ha, hb]
      · simp [List.filter_cons, ha]

theorem arraySort_filter (cmp : α → α → ℚ) (k : α → ℚ)
    (hk : ∀ a b, cmp a b ≤ 0 ↔ k a ≤ k b) (p : ℚ) (l : List α) :
    (arraySort cmp l).filter (fun x => decide (k x = p)) =
      l.filter (fun x => decide (k x = p)) := by
  induction l with
  | nil => simp [arraySort]
  | cons a rest ih =>
    unfold arraySort
    rw [sortInsert_filter cmp k hk, List.filter_cons, List.filter_cons, ih]

theorem arraySort_pair (cmp : α → α → ℚ) (k : α → ℚ)
    (hk : ∀ a b, cmp a b ≤ 0 ↔ k a ≤ k b) (l : List α) (a b : α) (hab : k a = k b)
    (h : List.Sublist [a, b] l) : List.Sublist [a, b] (arraySort cmp l) := by
  have h1 : List.Sublist ([a, b].filter (fun x => decide (k x = k b)))
      (l.filter (fun x => decide (k x = k b))) := List.Sublist.filter _ h
  have h2 : [a, b].filter (fun x => decide (k x = k b)) = [a, b] := by
    simp [List.filter_cons, hab]
  rw [h2, ← arraySort_filter cmp k hk] at h1
  exact h1.trans (List.filter_sublist _)

end Sorting

/-! ## Facts about the query -/

theorem includes_iff_infix (h q : JSString) : includes h q = true ↔ q <:+: h := by
  induction h with
  | nil =>
    cases q with
    | nil => simp [includes]
    | cons c cs => simp [includes]
  | cons c cs ih =>
    unfold includes
    rw [Bool.or_eq_true, ih, List.infix_cons_iff, List.isPrefixOf_iff_prefix]

theorem sortStep_perm (mode : JSString) (l : List Listing) : (sortStep mode l).Perm l := by
  unfold sortStep
  split_ifs
  · exact arraySort_perm _ l
  · exact arraySort_perm _ l
  · exact arraySort_perm _ l
  · exact List.Perm.refl l

theorem capAndFilter_sublist (toLowerCase : JSString → JSString) (allListings : List Listing)
    (favorites : Favorites) (st : QueryState) :
    List.Sublist (capAndFilter toLowerCase allListings favorites st) (allListings.take 50) := by
  unfold capAndFilter
  simp only
  split_ifs
  · exact (List.filter_sublist _).trans (List.filter_sublist _)
  · exact List.filter_sublist _
  · exact List.filter_sublist _
  · exact List.Sublist.refl _

theorem query_perm (toLowerCase : JSString → JSString) (allListings : List Listing)
    (favorites : Favorites) (st : QueryState) :
    (applyFiltersAndRender toLowerCase allListings favorites st).Perm
      (capAndFilter toLowerCase allListings favorites st) :=
  sortStep_perm _ _

theorem mem_capAndFilter (toLowerCase : JSString → JSString) (allListings : List Listing)
    (favorites : Favorites) (st : QueryState) (l : Listing) :
    l ∈ capAndFilter toLowerCase allListings favorites st ↔
      l ∈ allListings.take 50 ∧
      (searchQuery toLowerCase st ≠ [] →
        includes (hay toLowerCase l) (searchQuery toLowerCase st) = true) ∧
      (st.favOnlyChecked = true → (getFav favorites l.id).truthy = true) := by
  unfold capAndFilter
  simp only
  by_cases hq : searchQuery toLowerCase st = [] <;> by_cases hf : st.favOnlyChecked = true <;>
    simp [hq, hf, List.mem_filter, and_assoc, and_comm]

theorem sortStep_priceAsc (l : List Listing) :
    sortStep (js "priceAsc") l = arraySort (fun a b => priceKey a - priceKey b) l := by
  simp [sortStep]

theorem sortStep_ratingDesc (l : List Listing) :
    sortStep (js "ratingDesc") l = arraySort (fun a b => ratingKey b - ratingKey a) l := by
  have h1 : js "ratingDesc" ≠ js "priceAsc" := by decide
  have h2 : js "ratingDesc" ≠ js "priceDesc" := by decide
  simp [sortStep, h1, h2]

theorem sortStep_default (l : List Listing) : sortStep (js "default") l = l := by
  have h1 : js "default" ≠ js "priceAsc" := by decide
  have h2 : js "default" ≠ js "priceDesc" := by decide
  have h3 : js "default" ≠ js "ratingDesc" := by decide
  simp [sortStep, h1, h2, h3]

theorem sortMode_of_ne_nil (text sortValue : JSString) (favOnly : Bool) (h : sortValue ≠ []) :
    sortMode ⟨text, sortValue, favOnly⟩ = sortValue := by
  simp [sortMode, h]

theorem join_eq_intercalate (sep : JSString) (xs : List JSString) :
    join sep xs = List.intercalate sep xs := by
  induction xs with
  | nil => rfl
  | cons s rest ih =>
    cases rest with
    | nil => simp [join, List.intercalate]
    | cons t rest2 =>
      rw [join, ih]
      simp [List.intercalate, List.intersperse]

theorem filterBoolean_eq (fs : List (Option JSString)) :
    filterBoolean fs = (fs.reduceOption).filter (fun s => decide (s ≠ [])) := by
  induction fs with
  | nil => rfl
  | cons f rest ih =>
    cases f with
    | none => simp [filterBoolean, ih, List.reduceOption_cons_of_none]
    | some v =>
      cases v with
      | nil => simp [filterBoolean, ih, List.reduceOption_cons_of_some]
      | cons c cs => simp [filterBoolean, ih, List.reduceOption_cons_of_some]

theorem hay_eq (toLowerCase : JSString → JSString) (l : Listing) :
    hay toLowerCase l = toLowerCase (List.intercalate [32] (searchFields l)) := by
  unfold hay searchFields
  rw [join_eq_intercalate, filterBoolean_eq]

/-! ## Claims -/

/-- C8, as stated, fails: for the text `ab cd` and `max = 3` the trimmed text has 5
characters, yet `truncate` returns `ab…` (3 characters), not the first 3 characters
`ab ` followed by the ellipsis (4 characters). -/
theorem truncate_counterexample :
    (trim (toStr (some (js "ab cd")))).length = 5 ∧
    truncate (some (js "ab cd")) 3 = js "ab…" ∧
    truncate (some (js "ab cd")) 3 ≠ (trim (toStr (some (js "ab cd")))).take 3 ++ ellipsis ∧
    (truncate (some (js "ab cd")) 3).length ≠ 3 + 1 := by
  decide

/-- C8, amended: with `t` the trimmed text, `truncate` returns `t` when `t` has at most
`max` characters, the empty string when the input is absent or trims to empty, and for
`0 ≤ max < t.length` the first `max` characters of `t` with trailing whitespace removed,
followed by one ellipsis; the result then has at most `max + 1` characters, and exactly
the first `max` characters plus the ellipsis (`max + 1` characters) when that prefix does
not end in whitespace. -/
theorem truncate_spec (text : Option JSString) (max : Int) :
    (((trim (toStr text)).length : Int) ≤ max → truncate text max = trim (toStr text)) ∧
    (trim (toStr text) = [] → truncate text max = []) ∧
    (text = none → truncate text max = []) ∧
    (0 ≤ max → max < ((trim (toStr text)).length : Int) →
      truncate text max = trimEnd ((trim (toStr text)).take max.toNat) ++ ellipsis ∧
      ((truncate text max).length : Int) ≤ max + 1 ∧
      ((∀ c, ((trim (toStr text)).take max.toNat).getLast? = some c → isWhiteSpace c = false) →
        truncate text max = (trim (toStr text)).take max.toNat ++ ellipsis ∧
        ((truncate text max).length : Int) = max + 1)) := by
  refine ⟨truncate_of_le text max, truncate_of_nil text max, ?_, ?_⟩
  · intro h
    subst h
    exact truncate_of_nil none max (by decide)
  · intro h0 h
    have heq := truncate_of_gt text max h0 h
    have hlen : ((trim (toStr text)).take max.toNat).length = max.toNat := by
      rw [List.length_take]
      omega
    refine ⟨heq, ?_, ?_⟩
    · rw [heq, List.length_append]
      have h1 := trimEnd_length_le ((trim (toStr text)).take max.toNat)
      simp only [ellipsis, List.length_singleton]
      omega
    · intro hlast
      rw [heq, trimEnd_eq_self _ hlast]
      refine ⟨rfl, ?_⟩
      rw [List.length_append, hlen]
      simp only [ellipsis, List.length_singleton]
      omega

/-- Instance of `truncate_spec` on the text `ab cd  ` with `max = 3`. -/
theorem truncate_spec_witness :
    truncate (some (js "ab cd  ")) 3 = trimEnd ((trim (js "ab cd  ")).take 3) ++ ellipsis ∧
    ((truncate (some (js "ab cd  ")) 3).length : Int) ≤ 3 + 1 :=
  ⟨((truncate_spec (some (js "ab cd  ")) 3).2.2.2 (by decide) (by decide)).1,
   ((truncate_spec (some (js "ab cd  ")) 3).2.2.2 (by decide) (by decide)).2.1⟩

/-- C10: the output of `escapeHtml` has none of the code units `<` (60), `>` (62),
`"` (34) and apostrophe (39), every `&` (38) in it starts one of the five entities,
replacing the entities back recovers the input, and so escaping is injective. -/
theorem escapeHtml_spec (s : JSString) :
    (∀ c ∈ escapeHtml (some s), c ≠ 60 ∧ c ≠ 62 ∧ c ≠ 34 ∧ c ≠ 39) ∧
    (∀ i, (escapeHtml (some s))[i]? = some 38 →
      ∃ e ∈ entities, e <+: (escapeHtml (some s)).drop i) ∧
    unescapeHtml (escapeHtml (some s)) = s ∧
    (∀ t, escapeHtml (some t) = escapeHtml (some s) → t = s) := by
  refine ⟨escapeHtml_clean s, escapeHtml_amp s, unescapeHtml_escapeHtml s, ?_⟩
  intro t ht
  have h := congrArg unescapeHtml ht
  rwa [unescapeHtml_escapeHtml, unescapeHtml_escapeHtml] at h

/-- Instance of `escapeHtml_spec` on `<b>Tom & Jerry</b>` followed by a double quote
and an apostrophe. -/
theorem escapeHtml_spec_witness :
    escapeHtml (some (js "<b>Tom & Jerry</b>" ++ [34, 39])) =
      js "&lt;b&gt;Tom &amp; Jerry&lt;/b&gt;&quot;&#039;" ∧
    unescapeHtml (escapeHtml (some (js "<b>Tom & Jerry</b>" ++ [34, 39]))) =
      js "<b>Tom & Jerry</b>" ++ [34, 39] :=
  ⟨by decide, (escapeHtml_spec (js "<b>Tom & Jerry</b>" ++ [34, 39])).2.2.1⟩

/-- C7: toggling a favorite twice on the same id restores, for every id, the truthiness
of its entry `favorites[id]`.  One toggle flips the truthiness of the toggled id, except
for `__proto__` without an own property, where the write is ignored and the map stays as
it was; no toggle changes the entry of another id. -/
theorem toggleFavorite_twice (favorites : Favorites) (id : JSString) :
    (∀ k, (getFav (toggleFavorite (toggleFavorite favorites id) id) k).truthy =
      (getFav favorites k).truthy) ∧
    (¬ (id = js "__proto__" ∧ getOwn favorites id = none) →
      (getFav (toggleFavorite favorites id) id).truthy = !(getFav favorites id).truthy) ∧
    (id = js "__proto__" → getOwn favorites id = none →
      toggleFavorite favorites id = favorites) ∧
    (∀ k, k ≠ id → getFav (toggleFavorite favorites id) k = getFav favorites k) := by
  refine ⟨?_, ?_, ?_, ?_⟩
  · intro k
    by_cases hp : id = js "__proto__" ∧ getOwn favorites id = none
    · obtain ⟨hid, hown⟩ := hp
      subst hid
      rw [toggleFavorite_proto favorites hown, toggleFavorite_proto favorites hown]
    · have hp2 : ¬ (id = js "__proto__" ∧ getOwn (toggleFavorite favorites id) id = none) :=
        fun h => getOwn_toggleFavorite favorites id hp h.2
      rw [getFav_toggleFavorite _ id k hp2]
      by_cases h : k = id
      · subst h
        rw [getFav_toggleFavorite _ k k hp]
        simp [JSValue.truthy]
      · rw [if_neg h, getFav_toggleFavorite _ id k hp, if_neg h]
  · intro hp
    rw [getFav_toggleFavorite _ id id hp]
    simp [JSValue.truthy]
  · intro hid hown
    subst hid
    exact toggleFavorite_proto favorites hown
  · intro k hk
    by_cases hp : id = js "__proto__" ∧ getOwn favorites id = none
    · obtain ⟨hid, hown⟩ := hp
      subst hid
      rw [toggleFavorite_proto favorites hown]
    · rw [getFav_toggleFavorite _ id k hp, if_neg hk]

/-- Instance of `toggleFavorite_twice`: toggling id `3` (stored as `false`) stores `true`
and then `false` again; toggling `constructor`, which has no own entry and reads as the
inherited function, stores `false`; toggling `__proto__` changes nothing. -/
theorem toggleFavorite_twice_witness :
    toggleFavorite sampleFavorites (js "3") = [(js "2", .bool true), (js "3", .bool true)] ∧
    (getFav (toggleFavorite (toggleFavorite sampleFavorites (js "3")) (js "3"))
      (js "3")).truthy = (getFav sampleFavorites (js "3")).truthy ∧
    (getFav (toggleFavorite sampleFavorites (js "constructor")) (js "constructor")).truthy =
      !(getFav sampleFavorites (js "constructor")).truthy ∧
    toggleFavorite sampleFavorites (js "__proto__") = sampleFavorites :=
  ⟨by decide, (toggleFavorite_twice sampleFavorites (js "3")).1 (js "3"),
   (toggleFavorite_twice sampleFavorites (js "constructor")).2.1 (by decide),
   (toggleFavorite_twice sampleFavorites (js "__proto__")).2.2.1 rfl (by decide)⟩

/-- C1: with empty search text, sort mode `default` and favorites-only off, the query
returns the first `min(50, len D)` records of the dataset in dataset order, whatever the
favorites map is. -/
theorem query_default (toLowerCase : JSString → JSString) (hlower : toLowerCase [] = [])
    (allListings : List Listing) (favorites : Favorites) :
    applyFiltersAndRender toLowerCase allListings favorites
      ⟨[], js "default", false⟩ = allListings.take 50 ∧
    (applyFiltersAndRender toLowerCase allListings favorites ⟨[], js "default", false⟩).length =
      min 50 allListings.length := by
  have hq : searchQuery toLowerCase ⟨[], js "default", false⟩ = [] := by
    simp [searchQuery, trim, trimStart, trimEnd, hlower]
  have hm : sortMode ⟨[], js "default", false⟩ = js "default" :=
    sortMode_of_ne_nil _ _ _ (by decide)
  have h : applyFiltersAndRender toLowerCase allListings favorites ⟨[], js "default", false⟩ =
      allListings.take 50 := by
    unfold applyFiltersAndRender
    rw [hm, sortStep_default]
    unfold capAndFilter
    simp [hq]
  rw [h]
  exact ⟨rfl, List.length_take _ _⟩

/-- Instance of `query_default` on the 60-record sample dataset. -/
theorem query_default_witness :
    applyFiltersAndRender toLowerCaseAscii sampleDataset [] ⟨[], js "default", false⟩ =
      sampleDataset.take 50 :=
  (query_default toLowerCaseAscii (by decide) sampleDataset []).1

/-- C2: the query result is a rearrangement of a sub-sequence of the first 50 records:
it has at most 50 records, every record in it is among the first 50, and when the
non-empty search text occurs in none of the first 50 records the result is empty. -/
theorem query_capped (toLowerCase : JSString → JSString) (allListings : List Listing)
    (favorites : Favorites) (st : QueryState) :
    (∃ l, List.Sublist l (allListings.take 50) ∧
      (applyFiltersAndRender toLowerCase allListings favorites st).Perm l) ∧
    (applyFiltersAndRender toLowerCase allListings favorites st).length ≤ 50 ∧
    (∀ x ∈ applyFiltersAndRender toLowerCase allListings favorites st, x ∈ allListings.take 50) ∧
    (searchQuery toLowerCase st ≠ [] →
      (∀ x ∈ allListings.take 50,
        includes (hay toLowerCase x) (searchQuery toLowerCase st) = false) →
      applyFiltersAndRender toLowerCase allListings favorites st = []) := by
  have hsub := capAndFilter_sublist toLowerCase allListings favorites st
  have hperm := query_perm toLowerCase allListings favorites st
  refine ⟨⟨_, hsub, hperm⟩, ?_, ?_, ?_⟩
  · rw [hperm.length_eq]
    have h1 := hsub.length_le
    have h2 : (allListings.take 50).length ≤ 50 := by
      rw [List.length_take]
      exact Nat.min_le_left _ _
    omega
  · intro x hx
    exact hsub.subset (hperm.mem_iff.mp hx)
  · intro hq hnone
    have hnil : capAndFilter toLowerCase allListings favorites st = [] := by
      apply List.eq_nil_iff_forall_not_mem.mpr
      intro x hx
      obtain ⟨hx1, hx2, _⟩ := (mem_capAndFilter toLowerCase allListings favorites st x).mp hx
      have h1 := hx2 hq
      rw [hnone x hx1] at h1
      exact Bool.false_ne_true h1
    rw [hnil] at hperm
    exact hperm.eq_nil

/-- Instance of `query_capped`: in the 60-record sample dataset only record 55 mentions
an infinity pool, and searching for it returns nothing. -/
theorem query_capped_witness :
    includes (hay toLowerCaseAscii (sampleRecord 54)) (js "infinity pool") = true ∧
    applyFiltersAndRender toLowerCaseAscii sampleDataset []
      ⟨js "Infinity Pool", js "default", false⟩ = [] :=
  ⟨by decide,
   (query_capped toLowerCaseAscii sampleDataset []
      ⟨js "Infinity Pool", js "default", false⟩).2.2.2 (by decide) (by decide)⟩

/-- C3: under sort mode `priceAsc` the result is the stable sort of the capped and
filtered sequence by `parsePrice(price) ?? 0`: prices are non-decreasing along it, it is
a permutation of that sequence, and records of equal price keep the order they had. -/
theorem query_priceAsc (toLowerCase : JSString → JSString) (allListings : List Listing)
    (favorites : Favorites) (text : JSString) (favOnly : Bool) :
    (applyFiltersAndRender toLowerCase allListings favorites
      ⟨text, js "priceAsc", favOnly⟩).Pairwise
      (fun a b => priceKey a ≤ priceKey b) ∧
    (applyFiltersAndRender toLowerCase allListings favorites ⟨text, js "priceAsc", favOnly⟩).Perm
      (capAndFilter toLowerCase allListings favorites ⟨text, js "priceAsc", favOnly⟩) ∧
    (∀ p : ℚ,
      (applyFiltersAndRender toLowerCase allListings favorites
        ⟨text, js "priceAsc", favOnly⟩).filter
        (fun l => decide (priceKey l = p)) =
      (capAndFilter toLowerCase allListings favorites ⟨text, js "priceAsc", favOnly⟩).filter
        (fun l => decide (priceKey l = p))) ∧
    (∀ a b, priceKey a = priceKey b →
      List.Sublist [a, b]
        (capAndFilter toLowerCase allListings favorites ⟨text, js "priceAsc", favOnly⟩) →
      List.Sublist [a, b]
        (applyFiltersAndRender toLowerCase allListings favorites
          ⟨text, js "priceAsc", favOnly⟩)) := by
  have hk : ∀ a b : Listing, priceKey a - priceKey b ≤ 0 ↔ priceKey a ≤ priceKey b :=
    fun a b => sub_nonpos
  have hm : sortMode ⟨text, js "priceAsc", favOnly⟩ = js "priceAsc" :=
    sortMode_of_ne_nil _ _ _ (by decide)
  unfold applyFiltersAndRender
  rw [hm, sortStep_priceAsc]
  exact ⟨arraySort_sorted _ priceKey hk _, arraySort_perm _ _,
    fun p => arraySort_filter _ priceKey hk p _,
    fun a b hab h => arraySort_pair _ priceKey hk _ a b hab h⟩

/-- Instance of `query_priceAsc`: the prices 20, 10.5, 20 and none sort to
`sampleD`, `sampleB`, `sampleA`, `sampleC`, the tie `sampleA`, `sampleC` kept in order. -/
theorem query_priceAsc_witness :
    applyFiltersAndRender toLowerCaseAscii [sampleA, sampleB, sampleC, sampleD] []
      ⟨[], js "priceAsc", false⟩ =
      [sampleD, sampleB, sampleA, sampleC] ∧
    List.Sublist [sampleA, sampleC]
      (applyFiltersAndRender toLowerCaseAscii [sampleA, sampleB, sampleC, sampleD] []
        ⟨[], js "priceAsc", false⟩) :=
  ⟨by decide!,
   (query_priceAsc toLowerCaseAscii [sampleA, sampleB, sampleC, sampleD] [] [] false).2.2.2
     sampleA sampleC (by decide!) (by decide!)⟩

/-- With favorites-only enabled every returned record has a truthy `favorites[id]`, and
with an empty favorites map the result is empty as long as no id among the first 50
records names a member of `Object.prototype`. -/
theorem favOnly_kept (toLowerCase : JSString → JSString) (allListings : List Listing)
    (favorites : Favorites) (text sortValue : JSString) :
    (∀ l ∈ applyFiltersAndRender toLowerCase allListings favorites ⟨text, sortValue, true⟩,
      (getFav favorites l.id).truthy = true) ∧
    ((∀ l ∈ allListings.take 50, l.id ∉ objectPrototypeKeys) →
      applyFiltersAndRender toLowerCase allListings [] ⟨text, sortValue, true⟩ = []) := by
  constructor
  · intro l hl
    have h := (query_perm toLowerCase allListings favorites ⟨text, sortValue, true⟩).mem_iff.mp hl
    exact ((mem_capAndFilter toLowerCase allListings favorites _ l).mp h).2.2 rfl
  · intro hids
    have hperm := query_perm toLowerCase allListings [] ⟨text, sortValue, true⟩
    have hnil : capAndFilter toLowerCase allListings [] ⟨text, sortValue, true⟩ = [] := by
      apply List.eq_nil_iff_forall_not_mem.mpr
      intro x hx
      obtain ⟨hx1, _, hx3⟩ := (mem_capAndFilter toLowerCase allListings [] _ x).mp hx
      have h := hx3 rfl
      simp [getFav, getOwn, hids x hx1, JSValue.truthy] at h
    rw [hnil] at hperm
    exact hperm.eq_nil

/-- C4 fails on the code: with favorites-only enabled and the empty favorites map `{}`,
the listing whose id is `constructor` has no own entry in the map, yet
`favorites["constructor"]` reads the inherited `Object.prototype.constructor`, which is
truthy, and the listing is returned instead of the empty sequence. -/
theorem query_favOnly_inherited :
    getOwn [] sampleInherited.id = none ∧
    (getFav [] sampleInherited.id).truthy = true ∧
    applyFiltersAndRender toLowerCaseAscii [sampleInherited] []
      ⟨[], js "default", true⟩ = [sampleInherited] := by
  decide

/-- C5, as stated, fails: the listing `sampleLoft` has the primary neighbourhood
`Mission` and the alternate neighbourhood `Potrero Hill`; the search text `Potrero`
occurs only in the alternate field, the text the claim describes does not contain it,
yet the query keeps the listing. -/
theorem textFilter_counterexample :
    sampleLoft ∈ [sampleLoft].take 50 ∧
    searchQuery toLowerCaseAscii ⟨js "Potrero", js "default", false⟩ = js "potrero" ∧
    includes (specHay toLowerCaseAscii sampleLoft) (js "potrero") = false ∧
    applyFiltersAndRender toLowerCaseAscii [sampleLoft] [] ⟨js "Potrero", js "default", false⟩ =
      [sampleLoft] := by
  decide

/-- C5, amended: for a record among the first 50 and a search text whose trimmed,
lower-cased form `q` is non-empty, the text filter keeps the record if and only if `q`
is a substring of the lower-cased string that joins with single spaces the present,
non-empty fields name, host name, primary neighbourhood, alternate neighbourhood and
description, both neighbourhood fields included. -/
theorem textFilter_spec (toLowerCase : JSString → JSString) (allListings : List Listing)
    (favorites : Favorites) (text sortValue : JSString) (l : Listing)
    (hl : l ∈ allListings.take 50) (hq : toLowerCase (trim text) ≠ []) :
    l ∈ applyFiltersAndRender toLowerCase allListings favorites ⟨text, sortValue, false⟩ ↔
      toLowerCase (trim text) <:+: toLowerCase (List.intercalate [32] (searchFields l)) := by
  rw [(query_perm toLowerCase allListings favorites ⟨text, sortValue, false⟩).mem_iff,
    mem_capAndFilter, ← hay_eq toLowerCase l, ← includes_iff_infix]
  have hq2 : searchQuery toLowerCase ⟨text, sortValue, false⟩ = toLowerCase (trim text) := rfl
  rw [hq2]
  constructor
  · intro h
    exact h.2.1 hq
  · intro h
    exact ⟨hl, fun _ => h, fun hf => absurd hf Bool.false_ne_true⟩

/-- Instance of `textFilter_spec`: `sampleLoft` is kept for the search text `wifi`,
which occurs in its description as `WiFi`. -/
theorem textFilter_spec_witness :
    sampleLoft ∈ applyFiltersAndRender toLowerCaseAscii [sampleLoft] []
      ⟨js " wifi ", js "default", false⟩ :=
  (textFilter_spec toLowerCaseAscii [sampleLoft] [] (js " wifi ") (js "default") sampleLoft
    (by decide) (by decide)).mpr (by
      rw [← hay_eq toLowerCaseAscii sampleLoft, ← includes_iff_infix]
      decide)

/-- C9: under sort mode `ratingDesc` the result is the stable sort of the capped and
filtered sequence by `review_scores_rating ?? -1` in non-increasing order: it is a
permutation of that sequence, records of equal rating keep their order, and no record
without a rating comes before a record whose rating is at least 0. -/
theorem query_ratingDesc (toLowerCase : JSString → JSString) (allListings : List Listing)
    (favorites : Favorites) (text : JSString) (favOnly : Bool) :
    (applyFiltersAndRender toLowerCase allListings favorites
      ⟨text, js "ratingDesc", favOnly⟩).Pairwise
      (fun a b => ratingKey b ≤ ratingKey a) ∧
    (applyFiltersAndRender toLowerCase allListings favorites ⟨text, js "ratingDesc", favOnly⟩).Perm
      (capAndFilter toLowerCase allListings favorites ⟨text, js "ratingDesc", favOnly⟩) ∧
    (∀ p : ℚ,
      (applyFiltersAndRender toLowerCase allListings favorites
        ⟨text, js "ratingDesc", favOnly⟩).filter
        (fun l => decide (ratingKey l = p)) =
      (capAndFilter toLowerCase allListings favorites ⟨text, js "ratingDesc", favOnly⟩).filter
        (fun l => decide (ratingKey l = p))) ∧
    (∀ a b, ratingKey a = ratingKey b →
      List.Sublist [a, b]
        (capAndFilter toLowerCase allListings favorites ⟨text, js "ratingDesc", favOnly⟩) →
      List.Sublist [a, b]
        (applyFiltersAndRender toLowerCase allListings favorites
          ⟨text, js "ratingDesc", favOnly⟩)) ∧
    (applyFiltersAndRender toLowerCase allListings favorites
      ⟨text, js "ratingDesc", favOnly⟩).Pairwise
      (fun a b => ¬ (a.review_scores_rating = none ∧
        ∃ r, b.review_scores_rating = some r ∧ 0 ≤ r)) := by
  have hk : ∀ a b : Listing,
      ratingKey b - ratingKey a ≤ 0 ↔ (fun l => - ratingKey l) a ≤ (fun l => - ratingKey l) b := by
    intro a b
    simp only [sub_nonpos, neg_le_neg_iff]
  have hm : sortMode ⟨text, js "ratingDesc", favOnly⟩ = js "ratingDesc" :=
    sortMode_of_ne_nil _ _ _ (by decide)
  have hfun : ∀ p : ℚ, (fun l : Listing => decide (ratingKey l = p)) =
      (fun l : Listing => decide ((fun l => - ratingKey l) l = - p)) := by
    intro p
    funext l
    simp only [neg_inj]
  unfold applyFiltersAndRender
  rw [hm, sortStep_ratingDesc]
  have hsorted : (arraySort (fun a b => ratingKey b - ratingKey a)
      (capAndFilter toLowerCase allListings favorites ⟨text, js "ratingDesc", favOnly⟩)).Pairwise
      (fun a b => ratingKey b ≤ ratingKey a) :=
    (arraySort_sorted _ (fun l => - ratingKey l) hk _).imp (fun h => neg_le_neg_iff.mp h)
  refine ⟨hsorted, arraySort_perm _ _, ?_, ?_, ?_⟩
  · intro p
    rw [hfun p]
    exact arraySort_filter _ (fun l => - ratingKey l) hk (- p) _
  · intro a b hab h
    exact arraySort_pair _ (fun l => - ratingKey l) hk _ a b (by simp only [hab]) h
  · refine hsorted.imp ?_
    intro a b hle hcon
    obtain ⟨ha, r, hb, hr⟩ := hcon
    simp only [ratingKey, ha, hb, Option.getD_none, Option.getD_some] at hle
    linarith

/-- Instance of `query_ratingDesc`: the ratings 4.5, none, 4.5 and 0 sort to
`sampleA`, `sampleC`, `sampleD`, `sampleB`, the unrated record last. -/
theorem query_ratingDesc_witness :
    applyFiltersAndRender toLowerCaseAscii [sampleA, sampleB, sampleC, sampleD] []
      ⟨[], js "ratingDesc", false⟩ =
      [sampleA, sampleC, sampleD, sampleB] ∧
    List.Sublist [sampleA, sampleC]
      (applyFiltersAndRender toLowerCaseAscii [sampleA, sampleB, sampleC, sampleD] []
        ⟨[], js "ratingDesc", false⟩) :=
  ⟨by decide!,
   (query_ratingDesc toLowerCaseAscii [sampleA, sampleB, sampleC, sampleD] [] [] false).2.2.2.1
     sampleA sampleC (by decide!) (by decide!)⟩

/-- C6 fails on the code: for the inputs `""`, `abc`, `N/A` and an absent input the
remainder left after stripping is empty, and `parsePrice` returns `0` where the claim
says `null`, because `Number("")` is `0` and passes `Number.isFinite`; the malformed
remainders `.` and `1.2.3` do give `null`. -/
theorem parsePrice_empty_remainder :
    stripNonNumeric (orEmpty (some (js "abc"))) = [] ∧
    stripNonNumeric (orEmpty (some (js "N/A"))) = [] ∧
    parsePrice (some (js "")) = some 0 ∧
    parsePrice (some (js "abc")) = some 0 ∧
    parsePrice (some (js "N/A")) = some 0 ∧
    parsePrice none = some 0 ∧
    parsePrice (some (js ".")) = none ∧
    parsePrice (some (js "1.2.3")) = none := by
  decide

/-- What `parsePrice` computes: `0` when the remainder left after stripping every
character that is not a digit or `.` is empty, and `null` exactly when the remainder is
non-empty and is not a finite decimal number (not a decimal literal, or a literal of
value at least `2 ^ 1024 - 2 ^ 970`); `$187.00` gives `187` and `1,234.50` gives
`1234.5`. -/
theorem parsePrice_behaviour :
    (∀ p : Option JSString, stripNonNumeric (orEmpty p) = [] → parsePrice p = some 0) ∧
    (∀ p : Option JSString, parsePrice p = none ↔
      stripNonNumeric (orEmpty p) ≠ [] ∧ ¬ IsFiniteDecimal (stripNonNumeric (orEmpty p))) ∧
    (∀ p : Option JSString, stripNonNumeric (orEmpty p) ≠ [] →
      ¬ IsDecimalLiteral (stripNonNumeric (orEmpty p)) → parsePrice p = none) ∧
    parsePrice (some (js "$187.00")) = some 187 ∧
    parsePrice (some (js "1,234.50")) = some (2469 / 2) := by
  refine ⟨?_, ?_, ?_, by decide!, by decide!⟩
  · intro p h
    simp [parsePrice, finiteNumber, h]
  · intro p
    exact finiteNumber_eq_none_iff _
  · intro p hne hlit
    have hnone := (parseDecimal_eq_none_iff _).mpr hlit
    simp [parsePrice, finiteNumber, hne, hnone]

end MainModule
